import Mathlib

/-!
Shallow embedding of `src/nicegraf_shaderc.cpp` (the orchestrator `main` of
nicegraf-shaderc) together with the fixed data it consumes.  External
collaborators that live outside `src/` (the HLSL front end, SPIRV-Cross
reflection, the technique parser, the metadata serializer and the header
writer) are abstracted as oracle functions carried by an `Env` record; the
control flow, the combined-image-sampler renaming/binding loop, the ordering
of resource feeds, the target sorting and the output-file schedule are
translated directly from the source.
-/

namespace NgfShaderc

/-- Shader stage of a technique entry point (`shaderc_vertex_shader` /
`shaderc_fragment_shader` in the source). -/
inductive ShaderKind
  | vertex
  | fragment
deriving DecidableEq, Repr

/-- Modelled from the spec: `target_api` of `target.h` (not under `src/`);
the spec (§3) lists the three APIs `{GL, VULKAN, METAL}`.  The numeric order
used by the sort in `main` is taken from that listing. -/
inductive TargetApi
  | GL
  | VULKAN
  | METAL
deriving DecidableEq, Repr

/-- Numeric value of the `target_api` enumerator, used as the sort key. -/
def TargetApi.toNat : TargetApi → Nat
  | .GL => 0
  | .VULKAN => 1
  | .METAL => 2

/-- Modelled from the spec: `target_platform_class` of `target.h`
(not under `src/`); spec §3: `platform ∈ {DESKTOP, MOBILE}`. -/
inductive TargetPlatform
  | DESKTOP
  | MOBILE
deriving DecidableEq, Repr

/-- Modelled from the spec: the `target_info` record of `target.h`
(not under `src/`): `{api, platform, version_major, version_minor,
file_extension}` (spec §3). -/
structure TargetInfo where
  api : TargetApi
  platform : TargetPlatform
  version_maj : Nat
  version_min : Nat
  file_ext : String
deriving DecidableEq, Repr

/-- Modelled from the spec: the fixed target catalog `TARGET_MAP` of
`target.h` (not under `src/`).  The names and their API/platform/version
readings come from the `USAGE` text in `src/nicegraf_shaderc.cpp` and spec
§3.  The spec does not pin the file extensions; they are distinct per entry
in the real catalog, so the target name itself is used as a stand-in. -/
def TARGET_MAP : List (String × TargetInfo) :=
  [ ("gl430", ⟨TargetApi.GL, TargetPlatform.DESKTOP, 4, 3, "gl430"⟩),
    ("gles310", ⟨TargetApi.GL, TargetPlatform.MOBILE, 3, 1, "gles310"⟩),
    ("gles300", ⟨TargetApi.GL, TargetPlatform.MOBILE, 3, 0, "gles300"⟩),
    ("msl10", ⟨TargetApi.METAL, TargetPlatform.DESKTOP, 1, 0, "msl10"⟩),
    ("msl11", ⟨TargetApi.METAL, TargetPlatform.DESKTOP, 1, 1, "msl11"⟩),
    ("msl12", ⟨TargetApi.METAL, TargetPlatform.DESKTOP, 1, 2, "msl12"⟩),
    ("msl20", ⟨TargetApi.METAL, TargetPlatform.DESKTOP, 2, 0, "msl20"⟩),
    ("msl10ios", ⟨TargetApi.METAL, TargetPlatform.MOBILE, 1, 0, "msl10ios"⟩),
    ("msl11ios", ⟨TargetApi.METAL, TargetPlatform.MOBILE, 1, 1, "msl11ios"⟩),
    ("msl12ios", ⟨TargetApi.METAL, TargetPlatform.MOBILE, 1, 2, "msl12ios"⟩),
    ("msl20ios", ⟨TargetApi.METAL, TargetPlatform.MOBILE, 2, 0, "msl20ios"⟩),
    ("spv", ⟨TargetApi.VULKAN, TargetPlatform.DESKTOP, 1, 0, "spv"⟩) ]

/-- Name lookup in the target catalog (`std::find_if` over `TARGET_MAP`,
lines 137-145 of the source). -/
def lookupTarget (s : String) : Option TargetInfo :=
  (TARGET_MAP.find? (fun e => e.1 = s)).map (fun e => e.2)

/-- Entry point of a technique (`technique::entry_point`). -/
structure EntryPoint where
  name : String
  kind : ShaderKind
deriving DecidableEq, Repr

/-- A parsed technique (`technique` of `technique_parser.h`, shaped as the
spec §3 describes it; only the fields `main` reads appear). -/
structure Technique where
  name : String
  defines : List (String × String)
  entry_points : List EntryPoint
  additional_metadata : List (String × String)
deriving DecidableEq, Repr

/-- A reflected shader resource: id, name and original set/slot
(SPIRV-Cross `spirv_cross::Resource` viewed through the fields `main`
uses). -/
structure ReflResource where
  id : Nat
  name : String
  set : Nat
  slot : Nat
deriving DecidableEq, Repr

/-- SPIRV-Cross `spirv_cross::CombinedImageSampler`. -/
structure CombinedImageSampler where
  image_id : Nat
  sampler_id : Nat
  combined_id : Nat
deriving DecidableEq, Repr

/-- SPIRV-Cross `spirv_cross::ShaderResources`, restricted to the four
lists `main` feeds into the pipeline layout. -/
structure ShaderResources where
  uniform_buffers : List ReflResource
  storage_buffers : List ReflResource
  separate_samplers : List ReflResource
  separate_images : List ReflResource
deriving DecidableEq, Repr

/-- Result of reflecting one SPIR-V module with a back-end compiler:
the resource lists, the combined-image-sampler list, and the id-to-name
view (`get_name`).  For a fixed module this depends only on the target
API (which back-end class is instantiated and whether
`build_combined_image_samplers` ran), not on version or platform, which
only steer generated text. -/
structure ReflData where
  resources : ShaderResources
  cis : List CombinedImageSampler
  getName : Nat → String

/-- Descriptor types (`descriptor_type` of `pipeline_layout.h`, spec §3;
listing order is the wire order). -/
inductive DescriptorType
  | UNIFORM_BUFFER
  | STORAGE_BUFFER
  | SAMPLER
  | TEXTURE
  | COMBINED_IMAGE_SAMPLER
deriving DecidableEq, Repr

/-- Position of a descriptor type in the fixed processing sequence of
`main` (lines 283-290). -/
def DescriptorType.kindRank : DescriptorType → Nat
  | .UNIFORM_BUFFER => 0
  | .STORAGE_BUFFER => 1
  | .SAMPLER => 2
  | .TEXTURE => 3
  | .COMBINED_IMAGE_SAMPLER => 4

/-- Modelled from the spec: `STAGE_MASK_VERTEX` / `STAGE_MASK_FRAGMENT`
of `shader_defines.h` (not under `src/`); spec §3 says a two-bit
bitfield. -/
def stageMaskBit : ShaderKind → Nat
  | .vertex => 1
  | .fragment => 2

/-- Modelled from the spec: the fixed descriptor-set index reserved for
auto-generated combined image samplers (`AUTOGEN_CIS_DESCRIPTOR_SET` of
`pipeline_layout.h`, not under `src/`).  The spec does not pin the value;
any fixed constant serves the claims. -/
def AUTOGEN_CIS_DESCRIPTOR_SET : Nat := 7

/-- One `set_name` + `set_decoration(Binding)` +
`set_decoration(DescriptorSet)` step of the combined-sampler loop
(lines 251-261): the combined resource id, the name it is given, and the
descriptor set / binding slot it is bound to. -/
structure CisAssignment where
  combined_id : Nat
  name : String
  dset : Nat
  binding : Nat
deriving DecidableEq, Repr

/-- The combined-sampler loop of `main` (lines 251-261) for one back-end
compiler instance: walks the `CombinedImageSampler` list with a running
index, renames each combined id to `<image name>_<sampler name>` (reading
names through the mutable name state, which each `set_name` updates) and
binds it to `(AUTOGEN_CIS_DESCRIPTOR_SET, index)`. -/
def synthCisAux (getName : Nat → String) :
    List CombinedImageSampler → Nat → List CisAssignment
  | [], _ => []
  | remap :: rest, idx =>
    let nm := getName remap.image_id ++ "_" ++ getName remap.sampler_id
    { combined_id := remap.combined_id, name := nm,
      dset := AUTOGEN_CIS_DESCRIPTOR_SET, binding := idx } ::
      synthCisAux (fun i => if i = remap.combined_id then nm else getName i)
        rest (idx + 1)

/-- Combined-sampler assignments performed for one entry point: the loop
counter `cis_idx` starts at 0 for each compiler instance, i.e. for each
entry point (line 251). -/
def epCisAssignments (r : ReflData) : List CisAssignment :=
  synthCisAux r.getName r.cis 0

/-- A resource tagged with its descriptor type and stage mask, as passed
to `pipeline_layout::process_resources`. -/
abbrev FeedItem := DescriptorType × ReflResource × Nat

/-- The stream of resources one entry point feeds into the pipeline layout
builder: the four `process_resources` calls of `main` (lines 283-290), in
their fixed order, each preserving reflection order. -/
def epFeed (r : ReflData) (smb : Nat) : List FeedItem :=
  r.resources.uniform_buffers.map (fun res => (DescriptorType.UNIFORM_BUFFER, res, smb)) ++
  r.resources.storage_buffers.map (fun res => (DescriptorType.STORAGE_BUFFER, res, smb)) ++
  r.resources.separate_samplers.map (fun res => (DescriptorType.SAMPLER, res, smb)) ++
  r.resources.separate_images.map (fun res => (DescriptorType.TEXTURE, res, smb))

/-- Whether `main` remaps bindings for this API
(`do_remapping`, lines 262-263). -/
def apiDoRemap : TargetApi → Bool
  | .GL => true
  | .METAL => true
  | .VULKAN => false

/-- Everything the `.pipeline` serializer and the header writer read for
one technique: the technique name, the API it was reflected under, the
remap flag, the full resource stream fed to the layout builder, the
separate-to-combined map events (`add_resource` calls, lines 265-271), and
the user metadata.  The binary artifact is a deterministic function of
this record. -/
structure TechMetaData where
  techName : String
  api : TargetApi
  doRemap : Bool
  feed : List FeedItem
  imageCisEvents : List (Nat × Nat)
  samplerCisEvents : List (Nat × Nat)
  userMeta : List (String × String)
deriving DecidableEq, Repr

/-- Identity of an output file.  `main` builds the three path shapes at
lines 238-241 (`<out><sep><tech>.vs|ps.<ext>`), 311-312
(`<out><sep><tech>.pipeline`) and the header writer path. -/
inductive OutPath
  | shaderFile (outFolder techName : String) (kind : ShaderKind) (ext : String)
  | pipelineFile (outFolder techName : String)
  | headerFile (outFolder relPath : String)
deriving DecidableEq, Repr

/-- Contents of an output file: raw SPIR-V words, cross-compiled text, the
serialized pipeline metadata, or the generated header (namespace plus one
block per technique). -/
inductive Content
  | spvWords (words : List Nat)
  | text (s : String)
  | pipeline (d : TechMetaData)
  | header (ns : String) (blocks : List TechMetaData)
deriving DecidableEq, Repr

/-- One completed output-file write. -/
abbrev Write := OutPath × Content

/-- The run environment: the input source, plus the external collaborators
of `main` abstracted as functions (technique parser, HLSL front end,
back-end reflection keyed by entry point and API, back-end text generation
keyed additionally by the combined-sampler mutations applied before
`compile()`), and the I/O oracles for opening output files. -/
structure Env where
  source : String
  parse : String → List Technique
  frontend : Technique → EntryPoint → Except String (List Nat)
  reflectApi : Technique → EntryPoint → TargetApi → ReflData
  crossCompile : Technique → EntryPoint → TargetInfo → List CisAssignment → String
  headerOpenOk : Bool
  canOpen : OutPath → Bool

/-- Combined-sampler assignments performed while processing one technique
under one API: the per-entry-point loops, concatenated in entry-point
order. -/
def techCisAssignments (env : Env) (api : TargetApi) (tech : Technique) :
    List CisAssignment :=
  tech.entry_points.flatMap (fun ep => epCisAssignments (env.reflectApi tech ep api))

/-- The `TechMetaData` record produced for one technique under one API
(the per-technique `res_layout`, `images_to_cis` and `samplers_to_cis`
of lines 232-291, read off at the point the `.pipeline` file is
written). -/
def techMetaData (env : Env) (api : TargetApi) (tech : Technique) : TechMetaData :=
  { techName := tech.name
    api := api
    doRemap := apiDoRemap api
    feed := tech.entry_points.flatMap
      (fun ep => epFeed (env.reflectApi tech ep api) (stageMaskBit ep.kind))
    imageCisEvents := tech.entry_points.flatMap
      (fun ep => (env.reflectApi tech ep api).cis.map (fun c => (c.image_id, c.combined_id)))
    samplerCisEvents := tech.entry_points.flatMap
      (fun ep => (env.reflectApi tech ep api).cis.map (fun c => (c.sampler_id, c.combined_id)))
    userMeta := tech.additional_metadata }

/-- CLI configuration accumulated by the option loop of `main`
(lines 124-156). -/
structure Config where
  out_folder : String
  header_path : String
  header_namespace : String
  targets : List TargetInfo
deriving DecidableEq, Repr

/-- Initial configuration (lines 125-128). -/
def initConfig : Config :=
  { out_folder := ".", header_path := "", header_namespace := "", targets := [] }

/-- The option loop of `main` (lines 129-156): options are consumed as
name/value pairs; a name with no following value, an unknown option name,
or an unknown `-t` target each abort with a diagnostic (each `exit(1)`
site becomes an `Except.error`). -/
def parseOptsLoop : List String → Config → Except String Config
  | [], cfg => .ok cfg
  | [optName], _cfg => .error ("Expected an option value after " ++ optName)
  | optName :: optValue :: rest, cfg =>
    if optName = "-t" then
      match lookupTarget optValue with
      | none => .error ("Unknown target " ++ optValue)
      | some t => parseOptsLoop rest { cfg with targets := cfg.targets ++ [t] }
    else if optName = "-O" then
      parseOptsLoop rest { cfg with out_folder := optValue }
    else if optName = "-h" then
      parseOptsLoop rest { cfg with header_path := optValue }
    else if optName = "-n" then
      parseOptsLoop rest { cfg with header_namespace := optValue }
    else
      .error ("Unknown option: " ++ optName)

/-- The newline character appended to the input before parsing. -/
def newlineChar : Char := Char.ofNat 10

/-- Line 173 of the source: `input_source.push_back(newline)` -- applied
unconditionally to the loaded input text. -/
def preprocessSource (s : String) : String := s.push newlineChar

/-- The techniques `main` works with: the parse of the preprocessed
input (line 177). -/
def techniquesOf (env : Env) : List Technique :=
  env.parse (preprocessSource env.source)

/-- The front-end loop of `main` (lines 189-217): compile every entry
point of every technique, in source order, stopping at the first
failure. -/
def compileAll (env : Env) (techs : List Technique) :
    Except String (List (Technique × List (List Nat))) :=
  techs.mapM (fun t =>
    (t.entry_points.mapM (fun ep => env.frontend t ep)).map (fun spvs => (t, spvs)))

/-- The `<out><sep><tech>.vs|ps.` fragment selector of line 240. -/
def shaderKindTag : ShaderKind → String
  | .vertex => ".vs."
  | .fragment => ".ps."

/-- Modelled from the spec: `PATH_SEPARATOR` of `file_utils.h`
(not under `src/`). -/
def PATH_SEPARATOR : String := "/"

/-- String rendering of an output path (used only in diagnostics). -/
def OutPath.pathStr : OutPath → String
  | .shaderFile o t k e => o ++ PATH_SEPARATOR ++ t ++ shaderKindTag k ++ e
  | .pipelineFile o t => o ++ PATH_SEPARATOR ++ t ++ ".pipeline"
  | .headerFile o r => o ++ PATH_SEPARATOR ++ r

/-- The translated-shader writes `main` performs for one technique under
one target (lines 234-306): one file per entry point, holding the SPIR-V
words verbatim for `VULKAN` and the cross-compiled text otherwise. -/
def techShaderWrites (env : Env) (outFolder : String) (t : TargetInfo)
    (tech : Technique) (spvs : List (List Nat)) : List Write :=
  (tech.entry_points.zip spvs).map (fun p =>
    (OutPath.shaderFile outFolder tech.name p.1.kind t.file_ext,
     if t.api = TargetApi.VULKAN then Content.spvWords p.2
     else Content.text
       (env.crossCompile tech p.1 t (epCisAssignments (env.reflectApi tech p.1 t.api)))))

/-- The `.pipeline` write for one technique (lines 309-346). -/
def pipelineWrite (env : Env) (outFolder : String) (api : TargetApi)
    (tech : Technique) : Write :=
  (OutPath.pipelineFile outFolder tech.name, Content.pipeline (techMetaData env api tech))

/-- All writes of one iteration of the target loop (lines 229-347):
for each technique, the per-entry-point shader files, followed -- when
`generate_pipeline_metadata` is set -- by the technique's `.pipeline`
file. -/
def targetWrites (env : Env) (outFolder : String) (genMeta : Bool)
    (compiled : List (Technique × List (List Nat))) (t : TargetInfo) : List Write :=
  compiled.flatMap (fun tc =>
    techShaderWrites env outFolder t tc.1 tc.2 ++
    (if genMeta then [pipelineWrite env outFolder t.api tc.1] else []))

/-- The generated-header write: one file, holding one block per technique,
all emitted during the first target iteration (lines 310, 325, 328); no
file when `-h` was not given. -/
def headerWrites (env : Env) (outFolder headerPath headerNs : String)
    (compiled : List (Technique × List (List Nat))) (api0 : TargetApi) : List Write :=
  if headerPath = "" then []
  else
    [(OutPath.headerFile outFolder headerPath,
      Content.header headerNs (compiled.map (fun tc => techMetaData env api0 tc.1)))]

/-- The complete output-file schedule of the generation loop of `main`
(lines 228-349): the first target iteration runs with
`generate_pipeline_metadata = true`, every later one with `false`; the
header file collects its blocks during the first iteration. -/
def allWrites (env : Env) (cfg : Config)
    (compiled : List (Technique × List (List Nat))) : List TargetInfo → List Write
  | [] => []
  | t0 :: rest =>
    targetWrites env cfg.out_folder true compiled t0 ++
    rest.flatMap (targetWrites env cfg.out_folder false compiled) ++
    headerWrites env cfg.out_folder cfg.header_path cfg.header_namespace compiled t0.api

/-- Observable result of one process run: usage text on stdout (exit 0), a
fatal diagnostic on stderr (exit code, message, files fully written before
the abort), or a successful run with its writes (exit 0). -/
inductive Outcome
  | usage (stdoutText : String)
  | fail (code : Nat) (stderrText : String) (writes : List Write)
  | success (writes : List Write)
deriving DecidableEq, Repr

/-- Exit code of a run: `exit(0)` for the usage path and for success,
`exit(1)` everywhere else in the source. -/
def Outcome.exitCode : Outcome → Nat
  | .usage _ => 0
  | .fail c _ _ => c
  | .success _ => 0

/-- The files a run has (fully) written. -/
def Outcome.writtenFiles : Outcome → List Write
  | .usage _ => []
  | .fail _ _ ws => ws
  | .success ws => ws

/-- Order of the sort at lines 166-169: compare targets by their `api`
enumerator value. -/
def targetLe (a b : TargetInfo) : Prop := a.api.toNat ≤ b.api.toNat

instance : DecidableRel targetLe :=
  fun a b => inferInstanceAs (Decidable (a.api.toNat ≤ b.api.toNat))

instance : IsTotal TargetInfo targetLe :=
  ⟨fun a b => Nat.le_total a.api.toNat b.api.toNat⟩

instance : IsTrans TargetInfo targetLe :=
  ⟨fun _ _ _ h1 h2 => Nat.le_trans h1 h2⟩

/-- Diagnostic of line 159-160. -/
def noTargetsMsg : String :=
  "No target shader flavors specified! Use -t to specify a target."

/-- Diagnostic of lines 179-180. -/
def noTechniquesMsg : String :=
  "Input file does not appear to define any techniques. Define techniques with a special comment (//T:)."

/-- Diagnostic of lines 223 and 294. -/
def failedOpenMsg (p : String) : String := "Failed to open output file " ++ p

/-- The body of `main` after CLI processing (lines 157-351): require a
non-empty target list, sort targets by API, load and preprocess the input,
parse techniques (failing if none), run the front end, open the header
file if requested (failing before any output file exists), then perform
the write schedule, aborting at the first output file that cannot be
opened.  `std::sort` is modelled by a deterministic comparison sort over
the same key; no theorem below depends on the order it gives equal
keys. -/
def runWithCfg (env : Env) (cfg : Config) : Outcome :=
  if cfg.targets.isEmpty then .fail 1 noTargetsMsg []
  else
    let sorted := List.insertionSort targetLe cfg.targets
    let techs := techniquesOf env
    if techs.isEmpty then .fail 1 noTechniquesMsg []
    else
      match compileAll env techs with
      | .error msg => .fail 1 msg []
      | .ok compiled =>
        if cfg.header_path ≠ "" ∧ env.headerOpenOk = false then
          .fail 1 (failedOpenMsg (OutPath.headerFile cfg.out_folder cfg.header_path).pathStr) []
        else
          let ws := allWrites env cfg compiled sorted
          match ws.find? (fun w => ! env.canOpen w.1) with
          | none => .success ws
          | some w =>
            .fail 1 (failedOpenMsg w.1.pathStr) (ws.takeWhile (fun w => env.canOpen w.1))

/-- Usage text printed when `main` is invoked without arguments
(lines 49-74 and 117-121 of the source). -/
def usageMsg : String :=
  "
Usage: ngf_shaderc <input file name> [options]

Compiles HLSL shaders for multiple different targets.

Options:

  -O <path> - Folder to store output files in. Default is the current working
    directory.

  -t <target> - Generate shaders for the given target.  Accepted values are:
      * gl430;
      * gles310, gles300;
      * msl10, msl11, msl12, msl20;
      * msl10ios, msl11ios, msl12ios, msl20ios;
      * spv
    If the option is encountered multiple times, shaders for all of the
    mentioned targets will be generated.

  -h <path> - Path (relative to the output folder) for the generated
      header file with descriptor binding and set IDs. If not specified, no
      header file will be generated.

  -n <identifier> - Namespace for the generated shader file. If not specified,
     global namespace is used.
"

/-- `main` (line 117 onward): with no arguments print the usage text and
exit 0; otherwise `argv[1]` is the input file, the remaining arguments are
processed as options, and the run proceeds on the resulting
configuration. -/
def run (env : Env) (argv : List String) : Outcome :=
  if argv.length ≤ 1 then .usage (usageMsg ++ "\n")
  else
    match parseOptsLoop (argv.drop 2) initConfig with
    | .error msg => .fail 1 msg []
    | .ok cfg => runWithCfg env cfg

/-- Final state of the output directory after a run: for each path, the
content of the last completed write to it (`none` if never written). -/
def fsAfter : List Write → OutPath → Option Content
  | [], _ => none
  | w :: l, p => (fsAfter l p).or (if w.1 = p then some w.2 else none)

/-- Final filesystem view of a run. -/
def Outcome.fs (o : Outcome) : OutPath → Option Content :=
  fsAfter o.writtenFiles

/-- Decomposition of a character stream into its newline-terminated lines
and the unterminated tail, the view under which the technique parser scans
the source (spec §4.2). -/
def splitLines : List Char → List (List Char) × List Char
  | [] => ([], [])
  | c :: rest =>
    let p := splitLines rest
    if c = newlineChar then ([] :: p.1, p.2)
    else
      match p with
      | (l :: ls, lo) => ((c :: l) :: ls, lo)
      | ([], lo) => ([], c :: lo)

/-! ### Concrete sample data for the closed examples below -/

/-- Sample reflection result: one combined image/sampler tuple, image id 1
named `img`, sampler id 2 named `smp`, combined id 3. -/
def sampleRefl : ReflData :=
  { resources := ⟨[], [], [], []⟩
    cis := [⟨1, 2, 3⟩]
    getName := fun n => if n = 1 then "img" else if n = 2 then "smp" else "c" }

/-- Sample technique with a vertex and a fragment entry point. -/
def sampleTech : Technique :=
  { name := "blinn_phong"
    defines := []
    entry_points := [⟨"VSMain", ShaderKind.vertex⟩, ⟨"PSMain", ShaderKind.fragment⟩]
    additional_metadata := [] }

/-- Sample environment: parsing yields `sampleTech`, the front end
succeeds, every entry point reflects to `sampleRefl`, all output files can
be opened. -/
def sampleEnv : Env :=
  { source := "//T: name blinn_phong"
    parse := fun _ => [sampleTech]
    frontend := fun _ _ => .ok [119734787]
    reflectApi := fun _ _ _ => sampleRefl
    crossCompile := fun _ _ _ _ => "out"
    headerOpenOk := true
    canOpen := fun _ => true }

/-! ### Basic run-shape lemmas -/

theorem run_eq_runWithCfg (env : Env) (prog input : String) (opts : List String)
    (cfg : Config) (hp : parseOptsLoop opts initConfig = .ok cfg) :
    run env (prog :: input :: opts) = runWithCfg env cfg := by
  simp [run, hp]

theorem runWithCfg_success (env : Env) (cfg : Config)
    (ht : cfg.targets ≠ [])
    (htech : techniquesOf env ≠ [])
    {compiled : List (Technique × List (List Nat))}
    (hc : compileAll env (techniquesOf env) = .ok compiled)
    (hh : cfg.header_path = "" ∨ env.headerOpenOk = true)
    (hopen : ∀ p, env.canOpen p = true) :
    runWithCfg env cfg =
      .success (allWrites env cfg compiled (List.insertionSort targetLe cfg.targets)) := by
  have h1 : cfg.targets.isEmpty = false := by
    cases h : cfg.targets with
    | nil => exact absurd h ht
    | cons a l => simp [List.isEmpty]
  have h2 : (techniquesOf env).isEmpty = false := by
    cases h : techniquesOf env with
    | nil => exact absurd h htech
    | cons a l => simp [List.isEmpty]
  have h3 : ¬ (cfg.header_path ≠ "" ∧ env.headerOpenOk = false) := by
    rcases hh with hh | hh
    · intro hcon; exact hcon.1 hh
    · intro hcon; rw [hh] at hcon; exact absurd hcon.2 (by simp)
  have h4 : ∀ ws : List Write, ws.find? (fun w => ! env.canOpen w.1) = none := by
    intro ws
    rw [List.find?_eq_none]
    intro w _
    simp [hopen w.1]
  unfold runWithCfg
  simp only [h1, h2, hc, Bool.false_eq_true, if_false]
  rw [if_neg h3]
  simp only [h4]

/-! ### C9: no arguments prints usage and exits 0 -/

/-- C9: when invoked with no arguments at all, the program prints the
usage text to standard output and exits with code 0, not 1. -/
theorem c9_no_args_prints_usage (env : Env) (argv : List String)
    (h : argv.length ≤ 1) :
    run env argv = Outcome.usage (usageMsg ++ "\n") ∧
    (run env argv).exitCode = 0 := by
  have hr : run env argv = Outcome.usage (usageMsg ++ "\n") := by
    simp [run, h]
  exact ⟨hr, by rw [hr]; rfl⟩

/-- Closed instance of `c9_no_args_prints_usage` at a concrete argv. -/
theorem c9_no_args_prints_usage_witness :
    (["ngf_shaderc"] : List String).length ≤ 1 ∧
    (run sampleEnv ["ngf_shaderc"] = Outcome.usage (usageMsg ++ "\n") ∧
      (run sampleEnv ["ngf_shaderc"]).exitCode = 0) :=
  ⟨by decide, c9_no_args_prints_usage sampleEnv ["ngf_shaderc"] (by decide)⟩

/-! ### C7: CLI errors exit with code 1 -/

/-- Well-formedness of the option arguments, formalized from the claim:
options come as name/value pairs, every option name is one of
`-t`, `-O`, `-h`, `-n`, every `-t` value names a catalog target, and at
least one `-t` is present (the boolean argument tracks whether a `-t` has
been seen). -/
def cliOkAux : List String → Bool → Bool
  | [], hasT => hasT
  | [_], _ => false
  | optName :: optValue :: rest, hasT =>
    if optName = "-t" then ((lookupTarget optValue).isSome && cliOkAux rest true)
    else if optName = "-O" ∨ optName = "-h" ∨ optName = "-n" then cliOkAux rest hasT
    else false

theorem parseOptsLoop_bad : ∀ (opts : List String) (cfg : Config),
    cliOkAux opts (!cfg.targets.isEmpty) = false →
    (∃ msg, parseOptsLoop opts cfg = .error msg) ∨
    (∃ cfg2, parseOptsLoop opts cfg = .ok cfg2 ∧ cfg2.targets = [])
  | [], cfg, h => by
    have hb : cfg.targets.isEmpty = true := by
      revert h; cases cfg.targets.isEmpty <;> simp [cliOkAux]
    exact .inr ⟨cfg, rfl, List.isEmpty_iff.mp hb⟩
  | [x], cfg, _h => .inl ⟨_, rfl⟩
  | a :: b :: rest, cfg, h => by
    by_cases hat : a = "-t"
    · rw [cliOkAux, if_pos hat] at h
      cases hl : lookupTarget b with
      | none =>
        refine .inl ⟨"Unknown target " ++ b, ?_⟩
        rw [parseOptsLoop, if_pos hat, hl]
      | some t =>
        rw [hl] at h
        simp only [Option.isSome_some, Bool.true_and] at h
        have hne : (!(cfg.targets ++ [t]).isEmpty) = true := by
          simp [List.isEmpty_iff]
        have := parseOptsLoop_bad rest { cfg with targets := cfg.targets ++ [t] }
          (by rw [hne]; exact h)
        rw [parseOptsLoop, if_pos hat, hl]
        exact this
    · by_cases hao : a = "-O"
      · rw [cliOkAux, if_neg hat, if_pos (Or.inl hao)] at h
        have := parseOptsLoop_bad rest { cfg with out_folder := b } h
        rw [parseOptsLoop, if_neg hat, if_pos hao]
        exact this
      · by_cases hah : a = "-h"
        · rw [cliOkAux, if_neg hat, if_pos (Or.inr (Or.inl hah))] at h
          have := parseOptsLoop_bad rest { cfg with header_path := b } h
          rw [parseOptsLoop, if_neg hat, if_neg hao, if_pos hah]
          exact this
        · by_cases han : a = "-n"
          · rw [cliOkAux, if_neg hat, if_pos (Or.inr (Or.inr han))] at h
            have := parseOptsLoop_bad rest { cfg with header_namespace := b } h
            rw [parseOptsLoop, if_neg hat, if_neg hao, if_neg hah, if_pos han]
            exact this
          · refine .inl ⟨"Unknown option: " ++ a, ?_⟩
            rw [parseOptsLoop, if_neg hat, if_neg hao, if_neg hah, if_neg han]

/-- C7: for every command line that names an input file, a missing option
value, an option name other than `-t`/`-O`/`-h`/`-n`, a `-t` value outside
the target catalog, or the absence of any `-t` option all make the process
exit with code 1 (with a diagnostic and no output written). -/
theorem c7_cli_errors_exit1 (env : Env) (prog input : String)
    (opts : List String) (hbad : cliOkAux opts false = false) :
    ∃ msg, run env (prog :: input :: opts) = Outcome.fail 1 msg [] := by
  have h0 : (!initConfig.targets.isEmpty) = false := rfl
  rcases parseOptsLoop_bad opts initConfig (by rw [h0]; exact hbad) with
    ⟨msg, hm⟩ | ⟨cfg2, hok, hempty⟩
  · exact ⟨msg, by simp [run, hm]⟩
  · refine ⟨noTargetsMsg, ?_⟩
    rw [run_eq_runWithCfg env prog input opts cfg2 hok]
    unfold runWithCfg
    rw [hempty]
    rfl

/-- Closed instance of `c7_cli_errors_exit1`: an unknown option makes the
run exit 1. -/
theorem c7_cli_errors_exit1_witness :
    cliOkAux ["-x", "foo"] false = false ∧
    ∃ msg, run sampleEnv ["ngf_shaderc", "shader.hlsl", "-x", "foo"] =
      Outcome.fail 1 msg [] :=
  ⟨by decide, c7_cli_errors_exit1 sampleEnv "ngf_shaderc" "shader.hlsl" ["-x", "foo"]
    (by decide)⟩

/-! ### C6: zero techniques fails the run -/

/-- C6: when parsing yields zero techniques, the run fails with exit code
1, writes a diagnostic that mentions techniques to standard error, and
produces no output file. -/
theorem c6_zero_techniques_exit1 (env : Env) (prog input : String)
    (opts : List String) (cfg : Config)
    (hp : parseOptsLoop opts initConfig = .ok cfg)
    (ht : cfg.targets ≠ [])
    (hparse : techniquesOf env = []) :
    run env (prog :: input :: opts) = Outcome.fail 1 noTechniquesMsg [] ∧
    (∃ pre post : String, noTechniquesMsg = pre ++ "techniques" ++ post) ∧
    (run env (prog :: input :: opts)).writtenFiles = [] := by
  have h1 : cfg.targets.isEmpty = false := by
    cases h : cfg.targets with
    | nil => exact absurd h ht
    | cons a l => simp [List.isEmpty]
  have hr : run env (prog :: input :: opts) = Outcome.fail 1 noTechniquesMsg [] := by
    rw [run_eq_runWithCfg env prog input opts cfg hp]
    unfold runWithCfg
    rw [h1, hparse]
    rfl
  refine ⟨hr, ⟨"Input file does not appear to define any ",
    ". Define techniques with a special comment (//T:).", ?_⟩, by rw [hr]; rfl⟩
  rfl

/-- Environment identical to `sampleEnv` except that the technique parser
finds nothing. -/
def sampleEnvNoTech : Env := { sampleEnv with parse := fun _ => [] }

/-- Closed instance of `c6_zero_techniques_exit1`. -/
theorem c6_zero_techniques_exit1_witness :
    parseOptsLoop ["-t", "spv"] initConfig =
      .ok { initConfig with targets := [⟨TargetApi.VULKAN, TargetPlatform.DESKTOP, 1, 0, "spv"⟩] } ∧
    techniquesOf sampleEnvNoTech = [] ∧
    (run sampleEnvNoTech ["ngf_shaderc", "shader.hlsl", "-t", "spv"] =
        Outcome.fail 1 noTechniquesMsg [] ∧
      (∃ pre post : String, noTechniquesMsg = pre ++ "techniques" ++ post) ∧
      (run sampleEnvNoTech ["ngf_shaderc", "shader.hlsl", "-t", "spv"]).writtenFiles = []) :=
  ⟨rfl, rfl,
    c6_zero_techniques_exit1 sampleEnvNoTech "ngf_shaderc" "shader.hlsl" ["-t", "spv"]
      { initConfig with targets := [⟨TargetApi.VULKAN, TargetPlatform.DESKTOP, 1, 0, "spv"⟩] }
      rfl (by decide) rfl⟩

/-! ### C10: header-open failure aborts before any output file -/

/-- C10: when a header path was requested with `-h` but the header file
cannot be opened, the run exits with code 1 before any translated-shader
or `.pipeline` file has been created: the header open check sits after
front-end compilation and before the per-target output loop. -/
theorem c10_header_open_fail_before_outputs (env : Env) (prog input : String)
    (opts : List String) (cfg : Config)
    (hp : parseOptsLoop opts initConfig = .ok cfg)
    (ht : cfg.targets ≠ [])
    (htech : techniquesOf env ≠ [])
    {compiled : List (Technique × List (List Nat))}
    (hc : compileAll env (techniquesOf env) = .ok compiled)
    (hh : cfg.header_path ≠ "")
    (ho : env.headerOpenOk = false) :
    run env (prog :: input :: opts) =
      Outcome.fail 1
        (failedOpenMsg (OutPath.headerFile cfg.out_folder cfg.header_path).pathStr) [] ∧
    (run env (prog :: input :: opts)).writtenFiles = [] := by
  have h1 : cfg.targets.isEmpty = false := by
    cases h : cfg.targets with
    | nil => exact absurd h ht
    | cons a l => simp [List.isEmpty]
  have h2 : (techniquesOf env).isEmpty = false := by
    cases h : techniquesOf env with
    | nil => exact absurd h htech
    | cons a l => simp [List.isEmpty]
  have hr : run env (prog :: input :: opts) =
      Outcome.fail 1
        (failedOpenMsg (OutPath.headerFile cfg.out_folder cfg.header_path).pathStr) [] := by
    rw [run_eq_runWithCfg env prog input opts cfg hp]
    unfold runWithCfg
    simp only [h1, h2, hc, Bool.false_eq_true, if_false]
    rw [if_pos ⟨hh, ho⟩]
  exact ⟨hr, by rw [hr]; rfl⟩

/-- Environment identical to `sampleEnv` except that opening the header
file fails. -/
def sampleEnvHdrFail : Env := { sampleEnv with headerOpenOk := false }

/-- Closed instance of `c10_header_open_fail_before_outputs`. -/
theorem c10_header_open_fail_before_outputs_witness :
    sampleEnvHdrFail.headerOpenOk = false ∧
    (run sampleEnvHdrFail ["ngf_shaderc", "shader.hlsl", "-t", "spv", "-h", "bindings.h"] =
        Outcome.fail 1 (failedOpenMsg (OutPath.headerFile "." "bindings.h").pathStr) [] ∧
      (run sampleEnvHdrFail
          ["ngf_shaderc", "shader.hlsl", "-t", "spv", "-h", "bindings.h"]).writtenFiles = []) :=
  ⟨rfl,
    c10_header_open_fail_before_outputs sampleEnvHdrFail "ngf_shaderc" "shader.hlsl"
      ["-t", "spv", "-h", "bindings.h"]
      { initConfig with
          header_path := "bindings.h"
          targets := [⟨TargetApi.VULKAN, TargetPlatform.DESKTOP, 1, 0, "spv"⟩] }
      rfl (by decide) (by decide) rfl (by decide) rfl⟩

/-! ### C8: terminating newline appended before parsing -/

theorem splitLines_append_newline : ∀ l : List Char,
    splitLines (l ++ [newlineChar]) = ((splitLines l).1 ++ [(splitLines l).2], [])
  | [] => by simp [splitLines]
  | c :: l => by
    have ih := splitLines_append_newline l
    by_cases hc : c = newlineChar
    · simp [splitLines, hc, ih]
    · rcases hsp : splitLines l with ⟨f, s⟩
      rw [hsp] at ih
      cases f with
      | nil => simp [splitLines, hc, ih, hsp]
      | cons h t => simp [splitLines, hc, ih, hsp]

/-- C8: before technique parsing begins, a terminating newline is appended
to the loaded source, so the parsed text is the input followed by a
newline; in particular it ends with a newline, and the unterminated last
line of the input (where a directive may sit) becomes a proper
newline-terminated line of the parsed text. -/
theorem c8_newline_appended (env : Env) :
    techniquesOf env = env.parse (preprocessSource env.source) ∧
    (preprocessSource env.source).data = env.source.data ++ [newlineChar] ∧
    (preprocessSource env.source).data.getLast? = some newlineChar ∧
    splitLines (preprocessSource env.source).data =
      ((splitLines env.source.data).1 ++ [(splitLines env.source.data).2], []) := by
  have hd : (preprocessSource env.source).data = env.source.data ++ [newlineChar] := by
    simp [preprocessSource]
  refine ⟨rfl, hd, ?_, ?_⟩
  · rw [hd]
    exact List.getLast?_concat _
  · rw [hd]
    exact splitLines_append_newline _

/-! ### C1: combined-sampler renaming and binding -/

/-- Freshness of the synthesized combined ids: no combined id coincides
with any separate image or sampler id of the same reflection result (the
ids SPIRV-Cross allocates for synthesized combined samplers are new
ids). -/
def cisFresh (r : ReflData) : Prop :=
  ∀ c ∈ r.cis, ∀ c2 ∈ r.cis, c.combined_id ≠ c2.image_id ∧ c.combined_id ≠ c2.sampler_id

instance (r : ReflData) : Decidable (cisFresh r) := by
  unfold cisFresh
  infer_instance

theorem synthCisAux_spec :
    ∀ (cis : List CombinedImageSampler) (g g0 : Nat → String) (idx : Nat),
    (∀ c ∈ cis, g c.image_id = g0 c.image_id ∧ g c.sampler_id = g0 c.sampler_id) →
    (∀ c ∈ cis, ∀ c2 ∈ cis, c.combined_id ≠ c2.image_id ∧ c.combined_id ≠ c2.sampler_id) →
    synthCisAux g cis idx = (cis.enumFrom idx).map (fun ci =>
      { combined_id := ci.2.combined_id
        name := g0 ci.2.image_id ++ "_" ++ g0 ci.2.sampler_id
        dset := AUTOGEN_CIS_DESCRIPTOR_SET
        binding := ci.1 })
  | [], _, _, _, _, _ => rfl
  | remap :: rest, g, g0, idx, hagree, hfresh => by
    have hag := hagree remap (List.mem_cons_self _ _)
    have hrec := synthCisAux_spec rest
      (fun i => if i = remap.combined_id
        then g remap.image_id ++ "_" ++ g remap.sampler_id else g i)
      g0 (idx + 1)
      (by
        intro c hc
        have hf := hfresh remap (List.mem_cons_self _ _) c (List.mem_cons_of_mem _ hc)
        have ha := hagree c (List.mem_cons_of_mem _ hc)
        constructor
        · simp only []
          rw [if_neg (Ne.symm hf.1)]
          exact ha.1
        · simp only []
          rw [if_neg (Ne.symm hf.2)]
          exact ha.2)
      (fun c hc c2 hc2 =>
        hfresh c (List.mem_cons_of_mem _ hc) c2 (List.mem_cons_of_mem _ hc2))
    simp only [synthCisAux, hrec, List.enumFrom, List.map_cons]
    congr 1
    rw [hag.1, hag.2]

/-- C1 as stated is false on the code: in this closed run, a technique
with two entry points of one combined sampler each gets bindings `[0, 0]`,
while a running index per technique would give `[0, 1]`: the counter
restarts at 0 for every entry point. -/
theorem c1_counterexample :
    (techCisAssignments sampleEnv TargetApi.GL sampleTech).map CisAssignment.binding = [0, 0] ∧
    List.range (techCisAssignments sampleEnv TargetApi.GL sampleTech).length = [0, 1] ∧
    ([0, 0] : List Nat) ≠ [0, 1] :=
  ⟨rfl, rfl, by decide⟩

/-- C1 (amended): for every combined image/sampler tuple produced by
reflection for an entry point, assuming the synthesized combined ids are
fresh, the orchestrator renames the combined resource to
`<image name>_<sampler name>` and binds it to descriptor set
`AUTOGEN_CIS_DESCRIPTOR_SET` at a running slot index that starts at 0 for
each entry point (not per technique) and increments by one for each
successive combined sampler of that entry point. -/
theorem c1_cis_rename_and_bind (env : Env) (api : TargetApi) (tech : Technique)
    (hfresh : ∀ ep ∈ tech.entry_points, cisFresh (env.reflectApi tech ep api)) :
    techCisAssignments env api tech = tech.entry_points.flatMap (fun ep =>
      ((env.reflectApi tech ep api).cis.enum.map (fun ci =>
        { combined_id := ci.2.combined_id
          name := (env.reflectApi tech ep api).getName ci.2.image_id ++ "_" ++
                  (env.reflectApi tech ep api).getName ci.2.sampler_id
          dset := AUTOGEN_CIS_DESCRIPTOR_SET
          binding := ci.1 }))) := by
  unfold techCisAssignments
  have haux : ∀ l : List EntryPoint,
      (∀ ep ∈ l, cisFresh (env.reflectApi tech ep api)) →
      l.flatMap (fun ep => epCisAssignments (env.reflectApi tech ep api)) =
      l.flatMap (fun ep =>
        ((env.reflectApi tech ep api).cis.enum.map (fun ci =>
          { combined_id := ci.2.combined_id
            name := (env.reflectApi tech ep api).getName ci.2.image_id ++ "_" ++
                    (env.reflectApi tech ep api).getName ci.2.sampler_id
            dset := AUTOGEN_CIS_DESCRIPTOR_SET
            binding := ci.1 }))) := by
    intro l hl
    induction l with
    | nil => rfl
    | cons ep l ih =>
      rw [List.flatMap_cons, List.flatMap_cons,
        ih (fun e he => hl e (List.mem_cons_of_mem _ he))]
      congr 1
      exact synthCisAux_spec _ _ _ 0 (fun _ _ => ⟨rfl, rfl⟩)
        (hl ep (List.mem_cons_self _ _))
  exact haux tech.entry_points hfresh

/-- Closed instance of `c1_cis_rename_and_bind`. -/
theorem c1_cis_rename_and_bind_witness :
    (∀ ep ∈ sampleTech.entry_points, cisFresh (sampleEnv.reflectApi sampleTech ep TargetApi.GL)) ∧
    techCisAssignments sampleEnv TargetApi.GL sampleTech =
      sampleTech.entry_points.flatMap (fun ep =>
        ((sampleEnv.reflectApi sampleTech ep TargetApi.GL).cis.enum.map (fun ci =>
          { combined_id := ci.2.combined_id
            name := (sampleEnv.reflectApi sampleTech ep TargetApi.GL).getName ci.2.image_id ++ "_" ++
                    (sampleEnv.reflectApi sampleTech ep TargetApi.GL).getName ci.2.sampler_id
            dset := AUTOGEN_CIS_DESCRIPTOR_SET
            binding := ci.1 }))) :=
  ⟨by decide, c1_cis_rename_and_bind sampleEnv TargetApi.GL sampleTech (by decide)⟩

/-! ### Output-path discriminators and write-shape lemmas -/

/-- Whether a path is a translated-shader file. -/
def OutPath.isShader : OutPath → Bool
  | .shaderFile _ _ _ _ => true
  | _ => false

/-- Whether a path is a `.pipeline` metadata file. -/
def OutPath.isPipeline : OutPath → Bool
  | .pipelineFile _ _ => true
  | _ => false

/-- Whether a write targets a `.pipeline` metadata file. -/
def isPipelineWrite (w : Write) : Bool := w.1.isPipeline

/-- Whether a write targets a translated-shader file. -/
def isShaderWrite (w : Write) : Bool := w.1.isShader

theorem mem_techShaderWrites {env : Env} {o : String} {t : TargetInfo}
    {tech : Technique} {spvs : List (List Nat)} {w : Write}
    (hw : w ∈ techShaderWrites env o t tech spvs) :
    ∃ p ∈ tech.entry_points.zip spvs,
      w = (OutPath.shaderFile o tech.name p.1.kind t.file_ext,
        if t.api = TargetApi.VULKAN then Content.spvWords p.2
        else Content.text
          (env.crossCompile tech p.1 t (epCisAssignments (env.reflectApi tech p.1 t.api)))) := by
  rw [techShaderWrites] at hw
  rcases List.mem_map.mp hw with ⟨p, hp, he⟩
  exact ⟨p, hp, he.symm⟩

theorem techShaderWrites_not_pipeline {env : Env} {o : String} {t : TargetInfo}
    {tech : Technique} {spvs : List (List Nat)} {w : Write}
    (hw : w ∈ techShaderWrites env o t tech spvs) : isPipelineWrite w = false := by
  rcases mem_techShaderWrites hw with ⟨p, _, rfl⟩
  rfl

theorem targetWrites_filter_pipeline_true (env : Env) (o : String)
    (compiled : List (Technique × List (List Nat))) (t : TargetInfo) :
    (targetWrites env o true compiled t).filter isPipelineWrite =
      compiled.map (fun tc => pipelineWrite env o t.api tc.1) := by
  induction compiled with
  | nil => rfl
  | cons tc cs ih =>
    rw [targetWrites, List.flatMap_cons]
    rw [show cs.flatMap (fun tc => techShaderWrites env o t tc.1 tc.2 ++
        (if true then [pipelineWrite env o t.api tc.1] else [])) =
      targetWrites env o true cs t from rfl]
    rw [List.filter_append, List.filter_append, ih]
    rw [List.filter_eq_nil_iff.mpr (fun w hw => by
      rw [techShaderWrites_not_pipeline hw]; exact Bool.false_ne_true)]
    rfl

theorem targetWrites_filter_pipeline_false (env : Env) (o : String)
    (compiled : List (Technique × List (List Nat))) (t : TargetInfo) :
    (targetWrites env o false compiled t).filter isPipelineWrite = [] := by
  induction compiled with
  | nil => rfl
  | cons tc cs ih =>
    rw [targetWrites, List.flatMap_cons]
    rw [show cs.flatMap (fun tc => techShaderWrites env o t tc.1 tc.2 ++
        (if false then [pipelineWrite env o t.api tc.1] else [])) =
      targetWrites env o false cs t from rfl]
    rw [List.filter_append, ih]
    rw [List.filter_eq_nil_iff.mpr (fun w hw => by
      rcases List.mem_append.mp hw with hw | hw
      · rw [techShaderWrites_not_pipeline hw]; exact Bool.false_ne_true
      · cases hw)]
    rfl

/-! ### C4: resource kinds fed in fixed order -/

theorem pairwise_of_forall_rel {α : Type} {R : α → α → Prop} (h : ∀ a b, R a b) :
    ∀ l : List α, l.Pairwise R
  | [] => .nil
  | a :: l => .cons (fun b _ => h a b) (pairwise_of_forall_rel h l)

theorem mem_map_const_eq {α : Type} {l : List α} {c x : Nat}
    (h : x ∈ l.map (fun _ => c)) : x = c := by
  rcases List.mem_map.mp h with ⟨_, _, rfl⟩
  rfl

theorem sorted_le_append {l1 l2 : List Nat}
    (h1 : l1.Sorted (fun a b => a ≤ b)) (h2 : l2.Sorted (fun a b => a ≤ b))
    (h : ∀ x ∈ l1, ∀ y ∈ l2, x ≤ y) : (l1 ++ l2).Sorted (fun a b => a ≤ b) := by
  rw [List.Sorted, List.pairwise_append]
  exact ⟨h1, h2, h⟩

theorem epFeed_kindRank_sorted (r : ReflData) (smb : Nat) :
    ((epFeed r smb).map (fun f => f.1.kindRank)).Sorted (fun a b => a ≤ b) := by
  have hconst : ∀ (c : Nat) (l : List ReflResource),
      (l.map (fun _ => c)).Sorted (fun a b => a ≤ b) := by
    intro c l
    rw [List.Sorted, List.pairwise_map]
    exact pairwise_of_forall_rel (fun _ _ => Nat.le_refl c) l
  have key : ∀ (a b c d : List ReflResource),
      ((a.map (fun _ => 0) ++ b.map (fun _ => 1) ++ c.map (fun _ => 2) ++
        d.map (fun _ => 3)) : List Nat).Sorted (fun a b => a ≤ b) := by
    intro a b c d
    apply sorted_le_append
    · apply sorted_le_append
      · apply sorted_le_append (hconst 0 a) (hconst 1 b)
        intro x hx y hy
        rw [mem_map_const_eq hx, mem_map_const_eq hy]
        decide
      · exact hconst 2 c
      · intro x hx y hy
        rw [mem_map_const_eq hy]
        rcases List.mem_append.mp hx with hx | hx
        · rw [mem_map_const_eq hx]; decide
        · rw [mem_map_const_eq hx]; decide
    · exact hconst 3 d
    · intro x hx y hy
      rw [mem_map_const_eq hy]
      rcases List.mem_append.mp hx with hx | hx
      · rcases List.mem_append.mp hx with hx2 | hx2
        · rw [mem_map_const_eq hx2]; decide
        · rw [mem_map_const_eq hx2]; decide
      · rw [mem_map_const_eq hx]; decide
  have he : (epFeed r smb).map (fun f => f.1.kindRank) =
      r.resources.uniform_buffers.map (fun _ => 0) ++
      r.resources.storage_buffers.map (fun _ => 1) ++
      r.resources.separate_samplers.map (fun _ => 2) ++
      r.resources.separate_images.map (fun _ => 3) := by
    simp only [epFeed, List.map_append, List.map_map]
    rfl
  rw [he]
  exact key _ _ _ _

/-- C4: the resource stream fed into the pipeline layout builder for a
technique takes entry points in source order; within an entry point the
resource kinds come in the fixed sequence UNIFORM_BUFFER, STORAGE_BUFFER,
SAMPLER, TEXTURE (the kind ranks along the stream are monotone), each kind
preserving reflection order; and the per-technique layout records of a
metadata-generating target iteration are emitted with techniques in source
order. -/
theorem c4_resource_feed_order (env : Env) (api : TargetApi) (tech : Technique) :
    ((techMetaData env api tech).feed = tech.entry_points.flatMap (fun ep =>
      epFeed (env.reflectApi tech ep api) (stageMaskBit ep.kind))) ∧
    (∀ (r : ReflData) (smb : Nat), epFeed r smb =
      r.resources.uniform_buffers.map (fun res => (DescriptorType.UNIFORM_BUFFER, res, smb)) ++
      r.resources.storage_buffers.map (fun res => (DescriptorType.STORAGE_BUFFER, res, smb)) ++
      r.resources.separate_samplers.map (fun res => (DescriptorType.SAMPLER, res, smb)) ++
      r.resources.separate_images.map (fun res => (DescriptorType.TEXTURE, res, smb))) ∧
    (∀ (r : ReflData) (smb : Nat),
      ((epFeed r smb).map (fun f => f.1.kindRank)).Sorted (fun a b => a ≤ b)) ∧
    (∀ (outFolder : String) (compiled : List (Technique × List (List Nat))) (t : TargetInfo),
      (targetWrites env outFolder true compiled t).filter isPipelineWrite =
        compiled.map (fun tc => pipelineWrite env outFolder t.api tc.1)) :=
  ⟨rfl, fun _ _ => rfl, fun r smb => epFeed_kindRank_sorted r smb,
    fun o compiled t => targetWrites_filter_pipeline_true env o compiled t⟩

/-! ### C5: translated-shader file contents -/

theorem mem_targetWrites_of_techShader {env : Env} {o : String} {gm : Bool}
    {compiled : List (Technique × List (List Nat))} {t : TargetInfo}
    {tech : Technique} {spvs : List (List Nat)} {w : Write}
    (hcm : (tech, spvs) ∈ compiled) (hw : w ∈ techShaderWrites env o t tech spvs) :
    w ∈ targetWrites env o gm compiled t := by
  rw [targetWrites]
  exact List.mem_flatMap.mpr ⟨(tech, spvs), hcm, List.mem_append_left _ hw⟩

theorem mem_allWrites_of_target {env : Env} {cfg : Config}
    {compiled : List (Technique × List (List Nat))} {t : TargetInfo} {w : Write}
    (sorted : List TargetInfo) (hmem : t ∈ sorted)
    (hw : ∀ gm, w ∈ targetWrites env cfg.out_folder gm compiled t) :
    w ∈ allWrites env cfg compiled sorted := by
  cases sorted with
  | nil => cases hmem
  | cons t0 rest =>
    rw [allWrites]
    rcases List.mem_cons.mp hmem with rfl | hr
    · exact List.mem_append_left _ (List.mem_append_left _ (hw true))
    · exact List.mem_append_left _
        (List.mem_append_right _ (List.mem_flatMap.mpr ⟨t, hr, hw false⟩))

/-- C5: on a successful run, for every (technique, entry point, target)
triple the translated-shader output file holds the original SPIR-V words
verbatim when the target API is VULKAN and the back-end cross-compiled
text otherwise, with no surrounding framing. -/
theorem c5_shader_file_contents (env : Env) (prog input : String)
    (opts : List String) (cfg : Config)
    (hp : parseOptsLoop opts initConfig = .ok cfg)
    (ht : cfg.targets ≠ []) (htech : techniquesOf env ≠ [])
    {compiled : List (Technique × List (List Nat))}
    (hc : compileAll env (techniquesOf env) = .ok compiled)
    (hh : cfg.header_path = "" ∨ env.headerOpenOk = true)
    (hopen : ∀ p, env.canOpen p = true)
    (t : TargetInfo) (htmem : t ∈ cfg.targets)
    (tech : Technique) (spvs : List (List Nat)) (hcm : (tech, spvs) ∈ compiled)
    (ep : EntryPoint) (words : List Nat)
    (hep : (ep, words) ∈ tech.entry_points.zip spvs) :
    (OutPath.shaderFile cfg.out_folder tech.name ep.kind t.file_ext,
      if t.api = TargetApi.VULKAN then Content.spvWords words
      else Content.text
        (env.crossCompile tech ep t (epCisAssignments (env.reflectApi tech ep t.api)))) ∈
      (run env (prog :: input :: opts)).writtenFiles := by
  have hrun : run env (prog :: input :: opts) =
      .success (allWrites env cfg compiled (List.insertionSort targetLe cfg.targets)) := by
    rw [run_eq_runWithCfg env prog input opts cfg hp]
    exact runWithCfg_success env cfg ht htech hc hh hopen
  rw [hrun]
  apply mem_allWrites_of_target _ ((List.mem_insertionSort targetLe).mpr htmem)
  intro gm
  apply mem_targetWrites_of_techShader hcm
  rw [techShaderWrites]
  exact List.mem_map.mpr ⟨(ep, words), hep, rfl⟩

/-- Closed instance of `c5_shader_file_contents`: the `spv` target's
output file for the sample vertex entry point holds the SPIR-V words. -/
theorem c5_shader_file_contents_witness :
    ((⟨TargetApi.VULKAN, TargetPlatform.DESKTOP, 1, 0, "spv"⟩ : TargetInfo) ∈
      [(⟨TargetApi.VULKAN, TargetPlatform.DESKTOP, 1, 0, "spv"⟩ : TargetInfo)]) ∧
    (OutPath.shaderFile "." "blinn_phong" ShaderKind.vertex "spv",
      if (⟨TargetApi.VULKAN, TargetPlatform.DESKTOP, 1, 0, "spv"⟩ : TargetInfo).api =
          TargetApi.VULKAN
      then Content.spvWords [119734787]
      else Content.text
        (sampleEnv.crossCompile sampleTech ⟨"VSMain", ShaderKind.vertex⟩
          ⟨TargetApi.VULKAN, TargetPlatform.DESKTOP, 1, 0, "spv"⟩
          (epCisAssignments (sampleEnv.reflectApi sampleTech ⟨"VSMain", ShaderKind.vertex⟩
            TargetApi.VULKAN)))) ∈
      (run sampleEnv ["ngf_shaderc", "shader.hlsl", "-t", "spv"]).writtenFiles :=
  ⟨by decide,
    c5_shader_file_contents sampleEnv "ngf_shaderc" "shader.hlsl" ["-t", "spv"]
      { initConfig with targets := [⟨TargetApi.VULKAN, TargetPlatform.DESKTOP, 1, 0, "spv"⟩] }
      rfl (by decide) (by decide) rfl (Or.inl rfl) (fun _ => rfl)
      ⟨TargetApi.VULKAN, TargetPlatform.DESKTOP, 1, 0, "spv"⟩ (by decide)
      sampleTech [[119734787], [119734787]] (by decide)
      ⟨"VSMain", ShaderKind.vertex⟩ [119734787] (by decide)⟩

/-! ### C2: metadata and header written once, on the first target iteration -/

theorem flatMap_targetWrites_filter_pipeline (env : Env) (o : String)
    (rest : List TargetInfo) (compiled : List (Technique × List (List Nat))) :
    (rest.flatMap (targetWrites env o false compiled)).filter isPipelineWrite = [] := by
  induction rest with
  | nil => rfl
  | cons t ts ih =>
    rw [List.flatMap_cons, List.filter_append, targetWrites_filter_pipeline_false, ih]
    rfl

theorem headerWrites_filter_pipeline (env : Env) (o hpath hns : String)
    (compiled : List (Technique × List (List Nat))) (api0 : TargetApi) :
    (headerWrites env o hpath hns compiled api0).filter isPipelineWrite = [] := by
  rw [headerWrites]
  split
  · rfl
  · rfl

theorem mem_targetWrites_not_header {env : Env} {o : String} {gm : Bool}
    {compiled : List (Technique × List (List Nat))} {t : TargetInfo} {w : Write}
    {ns : String} {blocks : List TechMetaData}
    (hw : w ∈ targetWrites env o gm compiled t) : w.2 ≠ Content.header ns blocks := by
  rw [targetWrites] at hw
  rcases List.mem_flatMap.mp hw with ⟨tc, _, hw⟩
  rcases List.mem_append.mp hw with hw | hw
  · rcases mem_techShaderWrites hw with ⟨p, _, rfl⟩
    dsimp only
    split
    · exact fun h => Content.noConfusion h
    · exact fun h => Content.noConfusion h
  · cases gm with
    | false => simp at hw
    | true =>
      rw [if_pos rfl, List.mem_singleton] at hw
      rw [hw]
      exact fun h => Content.noConfusion h

/-- C2: on a successful run with a non-empty target list, the `.pipeline`
writes are exactly one per technique, in source order, all carrying the
metadata of the first target iteration; no later target iteration
contributes a `.pipeline` write; every emitted header content consists of
exactly one block per technique, also from the first iteration; and with
distinct technique names the `.pipeline` paths are pairwise distinct, so
exactly one `.pipeline` file is produced per technique no matter how many
targets are configured. -/
theorem c2_pipeline_and_header_once (env : Env) (prog input : String)
    (opts : List String) (cfg : Config)
    (hp : parseOptsLoop opts initConfig = .ok cfg)
    (ht : cfg.targets ≠ []) (htech : techniquesOf env ≠ [])
    {compiled : List (Technique × List (List Nat))}
    (hc : compileAll env (techniquesOf env) = .ok compiled)
    (hh : cfg.header_path = "" ∨ env.headerOpenOk = true)
    (hopen : ∀ p, env.canOpen p = true)
    (t0 : TargetInfo) (rest : List TargetInfo)
    (hs : List.insertionSort targetLe cfg.targets = t0 :: rest)
    (ws : List Write)
    (hws : (run env (prog :: input :: opts)).writtenFiles = ws) :
    (ws.filter isPipelineWrite =
      compiled.map (fun tc => pipelineWrite env cfg.out_folder t0.api tc.1)) ∧
    ((rest.flatMap (targetWrites env cfg.out_folder false compiled)).filter
      isPipelineWrite = []) ∧
    (∀ (p : OutPath) (ns : String) (blocks : List TechMetaData),
      (p, Content.header ns blocks) ∈ ws →
      blocks = compiled.map (fun tc => techMetaData env t0.api tc.1)) ∧
    ((compiled.map (fun tc => tc.1.name)).Nodup →
      ((ws.filter isPipelineWrite).map Prod.fst).Nodup) := by
  have hrun : run env (prog :: input :: opts) =
      .success (allWrites env cfg compiled (t0 :: rest)) := by
    rw [run_eq_runWithCfg env prog input opts cfg hp]
    rw [runWithCfg_success env cfg ht htech hc hh hopen, hs]
  have hws2 : ws = allWrites env cfg compiled (t0 :: rest) := by
    rw [← hws, hrun]
    rfl
  subst hws2
  have hfilter : (allWrites env cfg compiled (t0 :: rest)).filter isPipelineWrite =
      compiled.map (fun tc => pipelineWrite env cfg.out_folder t0.api tc.1) := by
    rw [allWrites, List.filter_append, List.filter_append,
      targetWrites_filter_pipeline_true, flatMap_targetWrites_filter_pipeline,
      headerWrites_filter_pipeline, List.append_nil, List.append_nil]
  refine ⟨hfilter, flatMap_targetWrites_filter_pipeline env cfg.out_folder rest compiled,
    ?_, ?_⟩
  · intro p ns blocks hmem
    rw [allWrites] at hmem
    rcases List.mem_append.mp hmem with hmem | hmem
    · rcases List.mem_append.mp hmem with hmem | hmem
      · exact absurd rfl (mem_targetWrites_not_header hmem)
      · rcases List.mem_flatMap.mp hmem with ⟨t, _, hmem⟩
        exact absurd rfl (mem_targetWrites_not_header hmem)
    · rw [headerWrites] at hmem
      split at hmem
      · cases hmem
      · rw [List.mem_singleton] at hmem
        injection hmem with h1 h2
        injection h2 with h3 h4
  · intro hnd
    rw [hfilter, List.map_map]
    rw [show (Prod.fst ∘ fun tc : Technique × List (List Nat) =>
        pipelineWrite env cfg.out_folder t0.api tc.1) =
      ((fun n => OutPath.pipelineFile cfg.out_folder n) ∘
        (fun tc : Technique × List (List Nat) => tc.1.name)) from rfl]
    rw [← List.map_map]
    apply List.Nodup.map _ hnd
    intro a b hab
    injection hab with h1 h2

/-- The catalog entry for `gl430`. -/
def gl430T : TargetInfo := ⟨TargetApi.GL, TargetPlatform.DESKTOP, 4, 3, "gl430"⟩

/-- The catalog entry for `spv`. -/
def spvT : TargetInfo := ⟨TargetApi.VULKAN, TargetPlatform.DESKTOP, 1, 0, "spv"⟩

/-- The compiled technique list of `sampleEnv`. -/
def sampleCompiled : List (Technique × List (List Nat)) :=
  [(sampleTech, [[119734787], [119734787]])]

/-- Closed instance of `c2_pipeline_and_header_once` with two targets. -/
theorem c2_pipeline_and_header_once_witness :
    (parseOptsLoop ["-t", "gl430", "-t", "spv"] initConfig =
      .ok { initConfig with targets := [gl430T, spvT] }) ∧
    (List.insertionSort targetLe [gl430T, spvT] = gl430T :: [spvT]) ∧
    ((((run sampleEnv
          ["ngf_shaderc", "shader.hlsl", "-t", "gl430", "-t", "spv"]).writtenFiles).filter
        isPipelineWrite =
      sampleCompiled.map (fun tc => pipelineWrite sampleEnv "." gl430T.api tc.1)) ∧
     (([spvT].flatMap (targetWrites sampleEnv "." false sampleCompiled)).filter
        isPipelineWrite = []) ∧
     (∀ (p : OutPath) (ns : String) (blocks : List TechMetaData),
        (p, Content.header ns blocks) ∈
          (run sampleEnv
            ["ngf_shaderc", "shader.hlsl", "-t", "gl430", "-t", "spv"]).writtenFiles →
        blocks = sampleCompiled.map (fun tc => techMetaData sampleEnv gl430T.api tc.1)) ∧
     ((sampleCompiled.map (fun tc => tc.1.name)).Nodup →
        ((((run sampleEnv
            ["ngf_shaderc", "shader.hlsl", "-t", "gl430", "-t", "spv"]).writtenFiles).filter
          isPipelineWrite).map Prod.fst).Nodup)) :=
  ⟨rfl, rfl,
    c2_pipeline_and_header_once sampleEnv "ngf_shaderc" "shader.hlsl"
      ["-t", "gl430", "-t", "spv"]
      { initConfig with targets := [gl430T, spvT] } rfl (by decide) (by decide) rfl
      (Or.inl rfl) (fun _ => rfl) gl430T [spvT] rfl
      (run sampleEnv
        ["ngf_shaderc", "shader.hlsl", "-t", "gl430", "-t", "spv"]).writtenFiles rfl⟩

/-! ### Filesystem-view lemmas for C3 -/

theorem fsAfter_append : ∀ (l1 l2 : List Write) (p : OutPath),
    fsAfter (l1 ++ l2) p = (fsAfter l2 p).or (fsAfter l1 p)
  | [], l2, p => by
    rw [List.nil_append]
    show fsAfter l2 p = (fsAfter l2 p).or none
    rw [Option.or_none]
  | w :: l1, l2, p => by
    show (fsAfter (l1 ++ l2) p).or (if w.1 = p then some w.2 else none) =
      (fsAfter l2 p).or ((fsAfter l1 p).or (if w.1 = p then some w.2 else none))
    rw [fsAfter_append l1 l2 p, Option.or_assoc]

theorem fsAfter_eq_none_of_not_mem : ∀ {l : List Write} {p : OutPath},
    (∀ w ∈ l, w.1 ≠ p) → fsAfter l p = none
  | [], _, _ => rfl
  | w :: l, p, h => by
    rw [fsAfter,
      fsAfter_eq_none_of_not_mem (fun w2 hw2 => h w2 (List.mem_cons_of_mem _ hw2)),
      Option.none_or, if_neg (h w (List.mem_cons_self _ _))]

theorem fsAfter_ne_none_imp_mem : ∀ {l : List Write} {p : OutPath},
    fsAfter l p ≠ none → ∃ w ∈ l, w.1 = p
  | [], _, h => absurd rfl h
  | w :: l, p, h => by
    by_cases hl : fsAfter l p = none
    · rw [fsAfter, hl, Option.none_or] at h
      by_cases hwp : w.1 = p
      · exact ⟨w, List.mem_cons_self _ _, hwp⟩
      · rw [if_neg hwp] at h
        exact absurd rfl h
    · rcases fsAfter_ne_none_imp_mem hl with ⟨w2, hw2, hp2⟩
      exact ⟨w2, List.mem_cons_of_mem _ hw2, hp2⟩

theorem or_comm_of_none {α : Type} {a b : Option α} (h : a = none ∨ b = none) :
    a.or b = b.or a := by
  rcases h with rfl | rfl
  · rw [Option.none_or, Option.or_none]
  · rw [Option.none_or, Option.or_none]

theorem fsAfter_append_congr_right {l1 l2 : List Write} (X : List Write)
    (h : ∀ p, fsAfter l1 p = fsAfter l2 p) :
    ∀ p, fsAfter (X ++ l1) p = fsAfter (X ++ l2) p := by
  intro p
  rw [fsAfter_append, fsAfter_append, h p]

theorem fsAfter_append_congr_left {l1 l2 : List Write} (Y : List Write)
    (h : ∀ p, fsAfter l1 p = fsAfter l2 p) :
    ∀ p, fsAfter (l1 ++ Y) p = fsAfter (l2 ++ Y) p := by
  intro p
  rw [fsAfter_append, fsAfter_append, h p]

theorem fsAfter_swap_of_disjoint {A B : List Write}
    (h : ∀ p, fsAfter A p = none ∨ fsAfter B p = none) :
    ∀ p, fsAfter (A ++ B) p = fsAfter (B ++ A) p := by
  intro p
  rw [fsAfter_append, fsAfter_append, or_comm_of_none ((h p).symm)]

theorem fs_disjoint_of_shapes {A B : List Write}
    (hAB : ∀ wa ∈ A, ∀ wb ∈ B, wa.1 ≠ wb.1) :
    ∀ p, fsAfter A p = none ∨ fsAfter B p = none := by
  intro p
  by_cases h : fsAfter A p = none
  · exact .inl h
  · right
    rcases fsAfter_ne_none_imp_mem h with ⟨wa, hwa, hpa⟩
    apply fsAfter_eq_none_of_not_mem
    intro wb hwb
    rw [← hpa]
    exact (hAB wa hwa wb hwb).symm

theorem targetWrites_false_paths {env : Env} {o : String}
    {compiled : List (Technique × List (List Nat))} {t : TargetInfo} {w : Write}
    (hw : w ∈ targetWrites env o false compiled t) :
    ∃ n k, w.1 = OutPath.shaderFile o n k t.file_ext := by
  rw [targetWrites] at hw
  rcases List.mem_flatMap.mp hw with ⟨tc, _, hw⟩
  rcases List.mem_append.mp hw with hw | hw
  · rcases mem_techShaderWrites hw with ⟨p, _, rfl⟩
    exact ⟨tc.1.name, p.1.kind, rfl⟩
  · simp at hw

theorem pipes_paths {env : Env} {o : String} {api : TargetApi}
    {compiled : List (Technique × List (List Nat))} {w : Write}
    (hw : w ∈ compiled.map (fun tc => pipelineWrite env o api tc.1)) :
    ∃ n, w.1 = OutPath.pipelineFile o n := by
  rcases List.mem_map.mp hw with ⟨tc, _, he⟩
  exact ⟨tc.1.name, by rw [← he]; rfl⟩

/-- Pulling the `.pipeline` writes of a metadata-generating target
iteration out to the right of its shader writes leaves the final
filesystem unchanged. -/
theorem targetWrites_true_fs_split (env : Env) (o : String)
    (compiled : List (Technique × List (List Nat))) (t : TargetInfo) :
    ∀ p, fsAfter (targetWrites env o true compiled t) p =
      fsAfter (targetWrites env o false compiled t ++
        compiled.map (fun tc => pipelineWrite env o t.api tc.1)) p := by
  induction compiled with
  | nil => intro p; rfl
  | cons tc cs ih =>
    intro p
    have e1 : targetWrites env o true (tc :: cs) t =
        (techShaderWrites env o t tc.1 tc.2 ++ [pipelineWrite env o t.api tc.1]) ++
          targetWrites env o true cs t := rfl
    have e2 : targetWrites env o false (tc :: cs) t =
        (techShaderWrites env o t tc.1 tc.2 ++ []) ++ targetWrites env o false cs t := rfl
    have hdisj : ∀ q, fsAfter [pipelineWrite env o t.api tc.1] q = none ∨
        fsAfter (targetWrites env o false cs t) q = none := by
      apply fs_disjoint_of_shapes
      intro wa hwa wb hwb
      rw [List.mem_singleton] at hwa
      subst hwa
      rcases targetWrites_false_paths hwb with ⟨n, k, he⟩
      rw [he]
      exact fun hcon => OutPath.noConfusion hcon
    rw [e1, e2, List.append_nil, List.append_assoc]
    have step1 : ∀ q, fsAfter ([pipelineWrite env o t.api tc.1] ++
        targetWrites env o true cs t) q =
        fsAfter ([pipelineWrite env o t.api tc.1] ++
          (targetWrites env o false cs t ++
            cs.map (fun tc2 => pipelineWrite env o t.api tc2.1))) q :=
      fsAfter_append_congr_right _ ih
    have step2 : ∀ q, fsAfter ([pipelineWrite env o t.api tc.1] ++
        (targetWrites env o false cs t ++
          cs.map (fun tc2 => pipelineWrite env o t.api tc2.1))) q =
        fsAfter (targetWrites env o false cs t ++
          ([pipelineWrite env o t.api tc.1] ++
            cs.map (fun tc2 => pipelineWrite env o t.api tc2.1))) q := by
      intro q
      rw [← List.append_assoc, ← List.append_assoc]
      exact fsAfter_append_congr_left _ (fsAfter_swap_of_disjoint hdisj) q
    have step3 := @fsAfter_append_congr_right
      ([pipelineWrite env o t.api tc.1] ++ targetWrites env o true cs t)
      (targetWrites env o false cs t ++
        ([pipelineWrite env o t.api tc.1] ++
          cs.map (fun tc2 => pipelineWrite env o t.api tc2.1)))
      (techShaderWrites env o t tc.1 tc.2)
      (fun q => (step1 q).trans (step2 q))
    rw [step3 p, ← List.append_assoc]
    rfl

theorem flat_false_paths {env : Env} {o : String}
    {compiled : List (Technique × List (List Nat))} {rest : List TargetInfo} {w : Write}
    (hw : w ∈ rest.flatMap (targetWrites env o false compiled)) :
    ∃ n k e, w.1 = OutPath.shaderFile o n k e := by
  rcases List.mem_flatMap.mp hw with ⟨t, _, hw⟩
  rcases targetWrites_false_paths hw with ⟨n, k, he⟩
  exact ⟨n, k, t.file_ext, he⟩

/-- Reordering writes across blocks with disjoint path sets leaves the
final filesystem unchanged: the generating-iteration block `A` may be
split as shader writes `A1` plus pipeline writes `P`, and `P` commutes
over the later shader blocks `F`. -/
theorem fs_reorder {A A1 P F H : List Write}
    (hA : ∀ q, fsAfter A q = fsAfter (A1 ++ P) q)
    (hPF : ∀ q, fsAfter P q = none ∨ fsAfter F q = none) :
    ∀ p, fsAfter ((A ++ F) ++ H) p = fsAfter ((A1 ++ F) ++ (P ++ H)) p := by
  intro p
  calc fsAfter ((A ++ F) ++ H) p
      = fsAfter (A ++ (F ++ H)) p := by rw [List.append_assoc]
    _ = fsAfter ((A1 ++ P) ++ (F ++ H)) p := fsAfter_append_congr_left _ hA p
    _ = fsAfter (A1 ++ (P ++ (F ++ H))) p := by rw [List.append_assoc]
    _ = fsAfter (A1 ++ ((P ++ F) ++ H)) p := by rw [List.append_assoc]
    _ = fsAfter (A1 ++ ((F ++ P) ++ H)) p :=
        fsAfter_append_congr_right _
          (fsAfter_append_congr_left _ (fsAfter_swap_of_disjoint hPF)) p
    _ = fsAfter (A1 ++ (F ++ (P ++ H))) p := by rw [List.append_assoc]
    _ = fsAfter ((A1 ++ F) ++ (P ++ H)) p := by rw [← List.append_assoc]

/-- Normal form of a run's filesystem: the shader writes of every target
in sorted order, followed by the pipeline writes (keyed by the first
target's API) and the header write. -/
theorem allWrites_fs_normal (env : Env) (cfg : Config)
    (compiled : List (Technique × List (List Nat))) (t0 : TargetInfo)
    (rest : List TargetInfo) :
    ∀ p, fsAfter (allWrites env cfg compiled (t0 :: rest)) p =
      fsAfter ((t0 :: rest).flatMap (targetWrites env cfg.out_folder false compiled) ++
        (compiled.map (fun tc => pipelineWrite env cfg.out_folder t0.api tc.1) ++
         headerWrites env cfg.out_folder cfg.header_path cfg.header_namespace compiled
           t0.api)) p := by
  intro p
  have hPF : ∀ q, fsAfter
      (compiled.map (fun tc => pipelineWrite env cfg.out_folder t0.api tc.1)) q = none ∨
      fsAfter (rest.flatMap (targetWrites env cfg.out_folder false compiled)) q = none := by
    apply fs_disjoint_of_shapes
    intro wa hwa wb hwb
    rcases pipes_paths hwa with ⟨n, ha⟩
    rcases flat_false_paths hwb with ⟨n2, k2, e2, hb⟩
    rw [ha, hb]
    exact fun hcon => OutPath.noConfusion hcon
  exact fs_reorder (targetWrites_true_fs_split env cfg.out_folder compiled t0) hPF p

/-- Final filesystem invariance of per-target shader-write blocks under
permutation of the target list, given that distinct targets have disjoint
output paths. -/
theorem fsAfter_flatMap_perm {α : Type} (seg : α → List Write) :
    ∀ {l1 l2 : List α}, l1.Perm l2 →
    (∀ a ∈ l1, ∀ b ∈ l1, seg a = seg b ∨
      (∀ p, fsAfter (seg a) p = none ∨ fsAfter (seg b) p = none)) →
    ∀ (C : List Write) (p : OutPath),
    fsAfter (l1.flatMap seg ++ C) p = fsAfter (l2.flatMap seg ++ C) p := by
  intro l1 l2 h
  induction h with
  | nil => intro _ C p; rfl
  | cons x hperm ih =>
    intro hd C p
    rw [List.flatMap_cons, List.flatMap_cons, List.append_assoc, List.append_assoc]
    exact fsAfter_append_congr_right (seg x)
      (fun q => ih (fun a ha b hb =>
        hd a (List.mem_cons_of_mem _ ha) b (List.mem_cons_of_mem _ hb)) C q) p
  | swap x y l =>
    intro hd C p
    rw [List.flatMap_cons, List.flatMap_cons, List.flatMap_cons, List.flatMap_cons]
    rw [← List.append_assoc (seg y), ← List.append_assoc (seg x)]
    rw [List.append_assoc (seg y ++ seg x), List.append_assoc (seg x ++ seg y)]
    rcases hd x (by simp) y (by simp) with heq | hdisj
    · rw [heq]
    · exact fsAfter_append_congr_left _
        (fsAfter_swap_of_disjoint (fun q => (hdisj q).symm)) p
  | trans h1 h2 ih1 ih2 =>
    intro hd C p
    rw [ih1 hd C p]
    exact ih2 (fun a ha b hb =>
      hd a (h1.mem_iff.mpr ha) b (h1.mem_iff.mpr hb)) C p

theorem targetApi_toNat_inj : ∀ {a b : TargetApi}, a.toNat = b.toNat → a = b := by
  intro a b h
  cases a <;> cases b <;> first | rfl | exact absurd h (by decide)

/-- Two sorted-by-API permutations of the same target list start with
targets of the same API. -/
theorem insertionSort_head_api_eq {l1 l2 : List TargetInfo} (hperm : l1.Perm l2)
    {t1 t2 : TargetInfo} {r1 r2 : List TargetInfo}
    (h1 : List.insertionSort targetLe l1 = t1 :: r1)
    (h2 : List.insertionSort targetLe l2 = t2 :: r2) :
    t1.api = t2.api := by
  have hs1 : (t1 :: r1).Sorted targetLe := by
    rw [← h1]; exact List.sorted_insertionSort targetLe l1
  have hs2 : (t2 :: r2).Sorted targetLe := by
    rw [← h2]; exact List.sorted_insertionSort targetLe l2
  have hm2 : t2 ∈ t1 :: r1 := by
    rw [← h1, List.mem_insertionSort]
    apply hperm.mem_iff.mpr
    rw [← List.mem_insertionSort (r := targetLe), h2]
    exact List.mem_cons_self _ _
  have hm1 : t1 ∈ t2 :: r2 := by
    rw [← h2, List.mem_insertionSort]
    apply hperm.mem_iff.mp
    rw [← List.mem_insertionSort (r := targetLe), h1]
    exact List.mem_cons_self _ _
  have le12 : targetLe t1 t2 := by
    rcases List.mem_cons.mp hm2 with he | hm
    · rw [he]; exact Nat.le_refl _
    · exact List.rel_of_sorted_cons hs1 _ hm
  have le21 : targetLe t2 t1 := by
    rcases List.mem_cons.mp hm1 with he | hm
    · rw [he]; exact Nat.le_refl _
    · exact List.rel_of_sorted_cons hs2 _ hm
  exact targetApi_toNat_inj (Nat.le_antisymm le12 le21)

/-- The fixed catalog assigns distinct file extensions to distinct
targets. -/
theorem catalog_ext_inj : ∀ e1 ∈ TARGET_MAP, ∀ e2 ∈ TARGET_MAP,
    e1.2.file_ext = e2.2.file_ext → e1.2 = e2.2 := by decide

theorem lookupTarget_mem {s : String} {t : TargetInfo} (h : lookupTarget s = some t) :
    ∃ nm, (nm, t) ∈ TARGET_MAP := by
  rw [lookupTarget] at h
  cases hf : TARGET_MAP.find? (fun e => e.1 = s) with
  | none => rw [hf] at h; cases h
  | some e =>
    rw [hf] at h
    injection h with he
    have hmem := List.mem_of_find?_eq_some hf
    refine ⟨e.1, ?_⟩
    rw [← he]
    simpa using hmem

/-- Every target collected by the option loop comes from the catalog (or
was already in the accumulator). -/
theorem parseOptsLoop_targets_catalog : ∀ (opts : List String) (cfg cfg2 : Config),
    parseOptsLoop opts cfg = .ok cfg2 →
    ∀ t ∈ cfg2.targets, t ∈ cfg.targets ∨ ∃ nm, (nm, t) ∈ TARGET_MAP
  | [], cfg, cfg2, h => by
    injection h with he
    subst he
    exact fun t ht => .inl ht
  | [x], _cfg, cfg2, h => Except.noConfusion h
  | a :: b :: rest, cfg, cfg2, h => by
    by_cases hat : a = "-t"
    · rw [parseOptsLoop, if_pos hat] at h
      cases hl : lookupTarget b with
      | none => rw [hl] at h; exact Except.noConfusion h
      | some tnew =>
        rw [hl] at h
        intro t ht
        rcases parseOptsLoop_targets_catalog rest _ cfg2 h t ht with hin | hcat
        · rcases List.mem_append.mp hin with hin | hin
          · exact .inl hin
          · rw [List.mem_singleton] at hin
            subst hin
            exact .inr (lookupTarget_mem hl)
        · exact .inr hcat
    · by_cases hao : a = "-O"
      · rw [parseOptsLoop, if_neg hat, if_pos hao] at h
        exact parseOptsLoop_targets_catalog rest { cfg with out_folder := b } cfg2 h
      · by_cases hah : a = "-h"
        · rw [parseOptsLoop, if_neg hat, if_neg hao, if_pos hah] at h
          exact parseOptsLoop_targets_catalog rest { cfg with header_path := b } cfg2 h
        · by_cases han : a = "-n"
          · rw [parseOptsLoop, if_neg hat, if_neg hao, if_neg hah, if_pos han] at h
            exact parseOptsLoop_targets_catalog rest { cfg with header_namespace := b } cfg2 h
          · rw [parseOptsLoop, if_neg hat, if_neg hao, if_neg hah, if_neg han] at h
            exact Except.noConfusion h

theorem runWithCfg_noTech (env : Env) (cfg : Config) (ht : cfg.targets ≠ [])
    (hparse : techniquesOf env = []) :
    runWithCfg env cfg = .fail 1 noTechniquesMsg [] := by
  have h1 : cfg.targets.isEmpty = false := by
    cases h : cfg.targets with
    | nil => exact absurd h ht
    | cons a l => simp [List.isEmpty]
  unfold runWithCfg
  rw [h1, hparse]
  rfl

theorem runWithCfg_frontendErr (env : Env) (cfg : Config) (ht : cfg.targets ≠ [])
    (htech : techniquesOf env ≠ []) {msg : String}
    (hc : compileAll env (techniquesOf env) = .error msg) :
    runWithCfg env cfg = .fail 1 msg [] := by
  have h1 : cfg.targets.isEmpty = false := by
    cases h : cfg.targets with
    | nil => exact absurd h ht
    | cons a l => simp [List.isEmpty]
  have h2 : (techniquesOf env).isEmpty = false := by
    cases h : techniquesOf env with
    | nil => exact absurd h htech
    | cons a l => simp [List.isEmpty]
  unfold runWithCfg
  simp only [h1, h2, hc, Bool.false_eq_true, if_false]

theorem runWithCfg_headerFail (env : Env) (cfg : Config) (ht : cfg.targets ≠ [])
    (htech : techniquesOf env ≠ []) {compiled : List (Technique × List (List Nat))}
    (hc : compileAll env (techniquesOf env) = .ok compiled)
    (hh : cfg.header_path ≠ "") (ho : env.headerOpenOk = false) :
    runWithCfg env cfg =
      .fail 1 (failedOpenMsg (OutPath.headerFile cfg.out_folder cfg.header_path).pathStr) [] := by
  have h1 : cfg.targets.isEmpty = false := by
    cases h : cfg.targets with
    | nil => exact absurd h ht
    | cons a l => simp [List.isEmpty]
  have h2 : (techniquesOf env).isEmpty = false := by
    cases h : techniquesOf env with
    | nil => exact absurd h htech
    | cons a l => simp [List.isEmpty]
  unfold runWithCfg
  simp only [h1, h2, hc, Bool.false_eq_true, if_false]
  rw [if_pos ⟨hh, ho⟩]

/-- C3: for a fixed environment, two runs whose command lines differ only
in the order in which the targets are listed produce the same final
filesystem -- every output file (translated shaders, `.pipeline` files,
header) is byte-identical -- and the same exit code.  The orchestrator
sorts the target list by API before processing; the catalog gives distinct
targets distinct file extensions, so per-target files never collide. -/
theorem c3_target_order_determinism (env : Env) (prog input : String)
    (opts1 opts2 : List String) (cfg1 cfg2 : Config)
    (hp1 : parseOptsLoop opts1 initConfig = .ok cfg1)
    (hp2 : parseOptsLoop opts2 initConfig = .ok cfg2)
    (hperm : cfg1.targets.Perm cfg2.targets)
    (hO : cfg1.out_folder = cfg2.out_folder)
    (hH : cfg1.header_path = cfg2.header_path)
    (hN : cfg1.header_namespace = cfg2.header_namespace)
    (hopen : ∀ p, env.canOpen p = true) :
    (run env (prog :: input :: opts1)).fs = (run env (prog :: input :: opts2)).fs ∧
    (run env (prog :: input :: opts1)).exitCode =
      (run env (prog :: input :: opts2)).exitCode := by
  rw [run_eq_runWithCfg env prog input opts1 cfg1 hp1,
    run_eq_runWithCfg env prog input opts2 cfg2 hp2]
  by_cases hempty : cfg1.targets = []
  · have h2 : cfg2.targets = [] := by
      apply List.eq_nil_of_length_eq_zero
      rw [← hperm.length_eq, hempty]
      rfl
    have e1 : runWithCfg env cfg1 = .fail 1 noTargetsMsg [] := by
      unfold runWithCfg; rw [hempty]; rfl
    have e2 : runWithCfg env cfg2 = .fail 1 noTargetsMsg [] := by
      unfold runWithCfg; rw [h2]; rfl
    rw [e1, e2]
    exact ⟨rfl, rfl⟩
  · have hne2 : cfg2.targets ≠ [] := by
      intro h0
      apply hempty
      apply List.eq_nil_of_length_eq_zero
      rw [hperm.length_eq, h0]
      rfl
    by_cases htech : techniquesOf env = []
    · rw [runWithCfg_noTech env cfg1 hempty htech, runWithCfg_noTech env cfg2 hne2 htech]
      exact ⟨rfl, rfl⟩
    · cases hcomp : compileAll env (techniquesOf env) with
      | error msg =>
        rw [runWithCfg_frontendErr env cfg1 hempty htech hcomp,
          runWithCfg_frontendErr env cfg2 hne2 htech hcomp]
        exact ⟨rfl, rfl⟩
      | ok compiled =>
        by_cases hhdr : cfg1.header_path ≠ "" ∧ env.headerOpenOk = false
        · rw [runWithCfg_headerFail env cfg1 hempty htech hcomp hhdr.1 hhdr.2,
            runWithCfg_headerFail env cfg2 hne2 htech hcomp (hH ▸ hhdr.1) hhdr.2,
            hO, hH]
          exact ⟨rfl, rfl⟩
        · have hh1 : cfg1.header_path = "" ∨ env.headerOpenOk = true := by
            by_cases hb : cfg1.header_path = ""
            · exact .inl hb
            · right
              cases hob : env.headerOpenOk with
              | false => exact absurd ⟨hb, hob⟩ hhdr
              | true => rfl
          have hh2 : cfg2.header_path = "" ∨ env.headerOpenOk = true := by
            rw [← hH]; exact hh1
          rw [runWithCfg_success env cfg1 hempty htech hcomp hh1 hopen,
            runWithCfg_success env cfg2 hne2 htech hcomp hh2 hopen]
          refine ⟨?_, rfl⟩
          funext p
          rcases hs1 : List.insertionSort targetLe cfg1.targets with _ | ⟨t01, r1⟩
          · exfalso
            apply hempty
            apply List.eq_nil_of_length_eq_zero
            have hpl := (List.perm_insertionSort targetLe cfg1.targets).length_eq
            rw [hs1] at hpl
            exact hpl.symm
          rcases hs2 : List.insertionSort targetLe cfg2.targets with _ | ⟨t02, r2⟩
          · exfalso
            apply hne2
            apply List.eq_nil_of_length_eq_zero
            have hpl := (List.perm_insertionSort targetLe cfg2.targets).length_eq
            rw [hs2] at hpl
            exact hpl.symm
          have hapi : t01.api = t02.api := insertionSort_head_api_eq hperm hs1 hs2
          have hsperm : (t01 :: r1).Perm (t02 :: r2) := by
            rw [← hs1, ← hs2]
            exact (List.perm_insertionSort targetLe cfg1.targets).trans
              (hperm.trans (List.perm_insertionSort targetLe cfg2.targets).symm)
          have hcat1 : ∀ t ∈ (t01 :: r1), ∃ nm, (nm, t) ∈ TARGET_MAP := by
            intro t htm
            rcases parseOptsLoop_targets_catalog opts1 initConfig cfg1 hp1 t
              (by
                rw [← List.mem_insertionSort (r := targetLe), hs1]
                exact htm) with hin | hcat
            · exact absurd hin (by simp [initConfig])
            · exact hcat
          have hd : ∀ a ∈ (t01 :: r1), ∀ b ∈ (t01 :: r1),
              targetWrites env cfg1.out_folder false compiled a =
                targetWrites env cfg1.out_folder false compiled b ∨
              (∀ q, fsAfter (targetWrites env cfg1.out_folder false compiled a) q = none ∨
                fsAfter (targetWrites env cfg1.out_folder false compiled b) q = none) := by
            intro a ha b hb
            by_cases hab : a = b
            · rw [hab]; exact .inl rfl
            · right
              have hext : a.file_ext ≠ b.file_ext := by
                intro he
                apply hab
                rcases hcat1 a ha with ⟨na, hma⟩
                rcases hcat1 b hb with ⟨nb, hmb⟩
                exact catalog_ext_inj (na, a) hma (nb, b) hmb he
              apply fs_disjoint_of_shapes
              intro wa hwa wb hwb
              rcases targetWrites_false_paths hwa with ⟨n1, k1, ha1⟩
              rcases targetWrites_false_paths hwb with ⟨n2, k2, hb1⟩
              rw [ha1, hb1]
              intro hcon
              simp only [OutPath.shaderFile.injEq] at hcon
              exact hext hcon.2.2.2
          show fsAfter (allWrites env cfg1 compiled (t01 :: r1)) p =
            fsAfter (allWrites env cfg2 compiled (t02 :: r2)) p
          calc fsAfter (allWrites env cfg1 compiled (t01 :: r1)) p
              = fsAfter
                  ((t01 :: r1).flatMap (targetWrites env cfg1.out_folder false compiled) ++
                  (compiled.map (fun tc => pipelineWrite env cfg1.out_folder t01.api tc.1) ++
                    headerWrites env cfg1.out_folder cfg1.header_path cfg1.header_namespace
                      compiled t01.api)) p :=
                allWrites_fs_normal env cfg1 compiled t01 r1 p
            _ = fsAfter
                  ((t02 :: r2).flatMap (targetWrites env cfg1.out_folder false compiled) ++
                  (compiled.map (fun tc => pipelineWrite env cfg1.out_folder t01.api tc.1) ++
                    headerWrites env cfg1.out_folder cfg1.header_path cfg1.header_namespace
                      compiled t01.api)) p :=
                fsAfter_flatMap_perm _ hsperm hd _ p
            _ = fsAfter (allWrites env cfg2 compiled (t02 :: r2)) p := by
                rw [hO, hH, hN, hapi]
                exact (allWrites_fs_normal env cfg2 compiled t02 r2 p).symm

/-- Closed instance of `c3_target_order_determinism`: swapping the two
`-t` options of a concrete run leaves every output file and the exit code
unchanged. -/
theorem c3_target_order_determinism_witness :
    ([gl430T, spvT].Perm [spvT, gl430T]) ∧
    ((run sampleEnv ["ngf_shaderc", "shader.hlsl", "-t", "gl430", "-t", "spv"]).fs =
        (run sampleEnv ["ngf_shaderc", "shader.hlsl", "-t", "spv", "-t", "gl430"]).fs ∧
      (run sampleEnv ["ngf_shaderc", "shader.hlsl", "-t", "gl430", "-t", "spv"]).exitCode =
        (run sampleEnv ["ngf_shaderc", "shader.hlsl", "-t", "spv", "-t", "gl430"]).exitCode) :=
  ⟨List.Perm.swap spvT gl430T [],
    c3_target_order_determinism sampleEnv "ngf_shaderc" "shader.hlsl"
      ["-t", "gl430", "-t", "spv"] ["-t", "spv", "-t", "gl430"]
      { initConfig with targets := [gl430T, spvT] }
      { initConfig with targets := [spvT, gl430T] }
      rfl rfl (List.Perm.swap spvT gl430T []) rfl rfl rfl (fun _ => rfl)⟩

end NgfShaderc
